import Mathlib

set_option maxRecDepth 4000
set_option linter.unusedVariables false

/-!
Shallow embedding of the tcommit template engine
(package `internal/core/template` of the repository).

Go strings are modelled as lists of characters (`Str`); `strings.Index`,
`strings.TrimSpace`, `strings.Split` and `strings.HasPrefix` are translated
to executable functions on such lists.  The `io.Writer` sink of the Go code
is modelled as an accumulated character list: writing to an in-memory
builder never fails, so node rendering returns `Except TemplateError Str`.
-/

deriving instance DecidableEq for Except

/-- Go `string` values, modelled as lists of characters. -/
abbrev Str := List Char

/-- The `Replacer` interface: `Get(key) -> (value, found)`. -/
abbrev Replacer := Str → Str × Bool

/-- The closed error taxonomy of `errors.go`:
`ErrInvalidTokenSyntax`, `ErrNoReplacement`, `ErrInvalidValue`,
each carrying the context the Go constructors receive. -/
inductive TemplateError where
  | InvalidTokenSyntax (token : Str)
  | NoReplacement (key : Str)
  | InvalidValue (val key : Str) (choices : List Str)
  deriving DecidableEq

/-- `TextNode` of `text_node.go`. -/
structure TextNode where
  Text : Str
  deriving DecidableEq

/-- `VarNode` of `var_node.go`. -/
structure VarNode where
  Key : Str
  Choices : List Str
  Default : Str
  HasDef : Bool
  deriving DecidableEq

/-- The `Node` interface: a closed union of the two implementations. -/
inductive Node where
  | text (t : TextNode)
  | var (v : VarNode)
  deriving DecidableEq

/-- `Template` holds the parsed nodes. -/
structure Template where
  Nodes : List Node
  deriving DecidableEq

/-- `openMarker = "{{"` (template.go). -/
def openMarker : Str := ['\x7b', '\x7b']

/-- `closeMarker = "}}"` (template.go). -/
def closeMarker : Str := ['\x7d', '\x7d']

/-- `varPrefix = "."` (template.go); renamed to avoid clashing notation. -/
def varSigil : Str := ['.']

/-- `choiceSep = ":"` (template.go). -/
def choiceSepStr : Str := [':']

/-- `choiceDelim = "|"` (template.go); `strings.Split` on a one-character
delimiter splits on this character. -/
def choiceDelim : Char := '|'

/-- `defPrefix = "@"` (template.go); renamed to avoid clashing notation. -/
def defSigil : Str := ['@']

/-- Go `unicode.IsSpace`: the Unicode White_Space property, which is the
exact set of code points Go's `strings.TrimSpace` strips. -/
def isSpaceGo (c : Char) : Bool :=
  let n := c.toNat
  (9 ≤ n && n ≤ 13) || n = 32 || n = 133 || n = 160 ||
    n = 0x1680 || (0x2000 ≤ n && n ≤ 0x200a) ||
    n = 0x2028 || n = 0x2029 || n = 0x202f || n = 0x205f || n = 0x3000

/-- Go `strings.TrimSpace`: drop White_Space characters from both ends. -/
def trimSpace (s : Str) : Str :=
  ((s.dropWhile isSpaceGo).reverse.dropWhile isSpaceGo).reverse

/-- Go `strings.Index(hay, needle)`: index of the first occurrence of
`needle` in `hay`, `none` standing for Go's `-1`. -/
def strIndex (hay needle : Str) : Option Nat :=
  if needle.isPrefixOf hay then some 0
  else
    match hay with
    | [] => none
    | _ :: t => (strIndex t needle).map (fun i => i + 1)

/-- Go slicing `data[a:b]`. -/
def goSlice (data : Str) (a b : Nat) : Str := (data.take b).drop a

/-- Go `strings.Split(s, d)` for a one-character delimiter `d`. -/
def splitOnChar (c : Char) : Str → List Str
  | [] => [[]]
  | x :: xs =>
    if x = c then [] :: splitOnChar c xs
    else
      match splitOnChar c xs with
      | [] => [[x]]
      | y :: ys => (x :: y) :: ys

/-- The `for _, p := range parts` loop of `parseToken`: each part is
trimmed; an `@`-part overwrites the default (marking it present), any
other part is appended to the choices. Returns (choices, default, hasDef). -/
def partsLoop : List Str → List Str → Str → Bool → List Str × Str × Bool
  | [], choices, dflt, hasDef => (choices, dflt, hasDef)
  | p :: ps, choices, dflt, hasDef =>
    let q := trimSpace p
    if defSigil.isPrefixOf q then
      partsLoop ps choices (q.drop defSigil.length) true
    else
      partsLoop ps (choices ++ [q]) dflt hasDef

/-- `parseToken` of template.go: parse one marker body into a node. -/
def parseToken (token : Str) : Except TemplateError Node :=
  let t := trimSpace token
  if varSigil.isPrefixOf t then
    let body := t.drop varSigil.length
    match strIndex body choiceSepStr with
    | some idx =>
      let parts := splitOnChar choiceDelim (body.drop (idx + choiceSepStr.length))
      let res := partsLoop parts [] [] false
      .ok (Node.var ⟨trimSpace (body.take idx), res.1, res.2.1, res.2.2⟩)
    | none => .ok (Node.var ⟨trimSpace body, [], [], false⟩)
  else .error (.InvalidTokenSyntax token)

/-- `findNextTemplate` of template.go: position of the next `{{ ... }}`
span at or after `startPos`, returning (start, one-past-end). -/
def findNextTemplate (data : Str) (startPos : Nat) : Option (Nat × Nat) :=
  match strIndex (data.drop startPos) openMarker with
  | none => none
  | some op =>
    match strIndex (data.drop (op + startPos + openMarker.length)) closeMarker with
    | none => none
    | some cp =>
      some (op + startPos, (cp + (op + startPos + openMarker.length)) + closeMarker.length)

/-- The scanning loop of `ParseString`, starting at position `pos`. -/
def parseLoop (data : Str) (pos : Nat) : Except TemplateError (List Node) :=
  match hfind : findNextTemplate data pos with
  | none =>
    if (data.drop pos).length > 0 then .ok [Node.text ⟨data.drop pos⟩]
    else .ok []
  | some (start, stop) =>
    match parseToken (goSlice data (start + openMarker.length) (stop - closeMarker.length)) with
    | .error e => .error e
    | .ok node =>
      (parseLoop data stop).map (fun rest =>
        if pos < start then Node.text ⟨goSlice data pos start⟩ :: node :: rest
        else node :: rest)
termination_by data.length - pos
decreasing_by
  unfold findNextTemplate at hfind
  split at hfind
  · exact absurd hfind (by simp)
  · split at hfind
    · exact absurd hfind (by simp)
    · rename_i x1 op hop x2 cp hcp
      simp only [Option.some.injEq, Prod.mk.injEq] at hfind
      obtain ⟨h1, h2⟩ := hfind
      have hlo : openMarker.length = 2 := rfl
      have hlc : closeMarker.length = 2 := rfl
      rw [hlo] at h2
      rw [hlc] at h2
      have hne : data.drop pos ≠ [] := by
        intro hnil
        rw [hnil] at hop
        have hsn : strIndex ([] : Str) openMarker = none := by decide
        rw [hsn] at hop
        cases hop
      have hpl : pos < data.length := by
        by_contra hge
        push_neg at hge
        exact hne (List.drop_eq_nil_of_le hge)
      omega

/-- `ParseString` of template.go: scan the whole input from position 0 and
wrap the nodes in a `Template`; on a token error no `Template` is produced. -/
def ParseString (data : Str) : Except TemplateError Template :=
  (parseLoop data 0).map (fun ns => ⟨ns⟩)

/-- The `for _, c := range v.Choices` loop of `isValidChoice`. -/
def goContains : List Str → Str → Bool
  | [], _ => false
  | c :: cs, val => if c = val then true else goContains cs val

/-- `isValidChoice` of var_node.go. -/
def VarNode.isValidChoice (v : VarNode) (val : Str) : Bool :=
  goContains v.Choices val

/-- `VarNode.WriteTo` of var_node.go.  Writing to the sink itself cannot
fail for an in-memory buffer, so the written text is returned on success. -/
def VarNode.WriteTo (v : VarNode) (r : Replacer) : Except TemplateError Str :=
  let val0 := (r v.Key).1
  let found := (r v.Key).2
  if !found && !v.HasDef then .error (.NoReplacement v.Key)
  else
    let val := if !found then v.Default else val0
    if v.Choices.length > 0 && found && !(v.isValidChoice val) then
      .error (.InvalidValue val v.Key v.Choices)
    else .ok val

/-- `TextNode.WriteTo` of text_node.go. -/
def TextNode.WriteTo (t : TextNode) (_ : Replacer) : Except TemplateError Str :=
  .ok t.Text

/-- Dynamic dispatch of the `Node` interface. -/
def Node.WriteTo : Node → Replacer → Except TemplateError Str
  | .text t, r => t.WriteTo r
  | .var v, r => v.WriteTo r

/-- The loop of `Template.Execute`: accumulate into a builder, returning
`("", err)` on the first failing node, exactly as the Go code does. -/
def execBuild (r : Replacer) : List Node → Str → Str × Option TemplateError
  | [], out => (out, none)
  | n :: ns, out =>
    match n.WriteTo r with
    | .error e => ([], some e)
    | .ok s => execBuild r ns (out ++ s)

/-- `Template.Execute` of template.go. -/
def Template.Execute (t : Template) (r : Replacer) : Str × Option TemplateError :=
  execBuild r t.Nodes []

/-- The loop of `Template.ExecuteTo`: write each node into the sink `w`,
stopping at the first error; the sink keeps what was already written. -/
def execTo (r : Replacer) : List Node → Str → Str × Option TemplateError
  | [], w => (w, none)
  | n :: ns, w =>
    match n.WriteTo r with
    | .error e => (w, some e)
    | .ok s => execTo r ns (w ++ s)

/-- `Template.ExecuteTo` of template.go, with the sink made explicit. -/
def Template.ExecuteTo (t : Template) (w : Str) (r : Replacer) :
    Str × Option TemplateError :=
  execTo r t.Nodes w

/-- Renders a list of nodes individually, `none` as soon as one fails;
used to state which nodes of a template render successfully. -/
def renderAll (r : Replacer) : List Node → Option (List Str)
  | [] => some []
  | n :: ns =>
    match n.WriteTo r with
    | .ok s => (renderAll r ns).map (fun rest => s :: rest)
    | .error _ => none

/-- Spec-side description (claim C5): the allowed-value entries are the
trimmed non-`@` parts, in order, duplicates preserved. -/
def specChoices (parts : List Str) : List Str :=
  (parts.map trimSpace).filter (fun q => !(defSigil.isPrefixOf q))

/-- Spec-side description (claim C5): a default is present exactly when
some trimmed part begins with the default sigil. -/
def specHasDef (parts : List Str) : Bool :=
  (parts.map trimSpace).any (fun q => defSigil.isPrefixOf q)

/-- Spec-side description (claim C5): the default is the last trimmed
`@`-part with the sigil stripped, the empty string when there is none. -/
def specDefault (parts : List Str) : Str :=
  ((((parts.map trimSpace).reverse.find? (fun q => defSigil.isPrefixOf q)).map
    (fun q => q.drop defSigil.length)).getD [])

/-- A replacer that finds no key at all. -/
def noneReplacer : Replacer := fun _ => ([], false)

/-- Concrete input `"Hello {{.name"` (spec §8, unterminated marker). -/
def helloInput : Str :=
  ['H', 'e', 'l', 'l', 'o', ' ', '\x7b', '\x7b', '.', 'n', 'a', 'm', 'e']

/-- Concrete input `"{{x}}{{.y"`: a complete marker with an invalid body
followed by an unmatched opening marker. -/
def cexC2Input : Str :=
  ['\x7b', '\x7b', 'x', '\x7d', '\x7d', '\x7b', '\x7b', '.', 'y']

/-- Concrete input `"{{.k}}"`: input ending exactly at a closed marker. -/
def cexC8Input : Str := ['\x7b', '\x7b', '.', 'k', '\x7d', '\x7d']

/-- Concrete input `"{{k}}"`: marker body without the variable sigil. -/
def tokC3Input : Str := ['\x7b', '\x7b', 'k', '\x7d', '\x7d']

/-- Concrete input `"{{.key:@}}"`: bare default sigil. -/
def c6Input : Str :=
  ['\x7b', '\x7b', '.', 'k', 'e', 'y', ':', '@', '\x7d', '\x7d']

/-- Concrete marker body `".k:a|@d|b"`. -/
def tokC5 : Str := ['.', 'k', ':', 'a', '|', '@', 'd', '|', 'b']

/-! ### General lemmas about the embedded definitions -/

theorem strIndex_nil_openMarker : strIndex ([] : Str) openMarker = none := by
  decide

theorem parseLoop_none (data : Str) (pos : Nat)
    (h : findNextTemplate data pos = none) :
    parseLoop data pos =
      if (data.drop pos).length > 0 then .ok [Node.text ⟨data.drop pos⟩]
      else .ok [] := by
  unfold parseLoop
  split
  · rfl
  · rename_i start stop hfind
    rw [h] at hfind
    cases hfind

theorem parseLoop_found (data : Str) (pos start stop : Nat)
    (h : findNextTemplate data pos = some (start, stop)) :
    parseLoop data pos =
      match parseToken (goSlice data (start + openMarker.length) (stop - closeMarker.length)) with
      | .error e => .error e
      | .ok node =>
        (parseLoop data stop).map (fun rest =>
          if pos < start then Node.text ⟨goSlice data pos start⟩ :: node :: rest
          else node :: rest) := by
  conv_lhs => unfold parseLoop
  split
  · rename_i hfind
    rw [h] at hfind
    cases hfind
  · rename_i s e hfind
    rw [h] at hfind
    injection hfind with hp
    cases hp
    rfl

theorem goContains_eq_mem (cs : List Str) (val : Str) :
    goContains cs val = true ↔ val ∈ cs := by
  induction cs with
  | nil => simp [goContains]
  | cons c t ih =>
    by_cases h : c = val
    · subst h
      simp [goContains]
    · simp [goContains, h, ih]
      intro hv
      exact absurd hv.symm h

theorem exec_agree (r : Replacer) (ns : List Node) (out : Str) :
    (execBuild r ns out).2 = (execTo r ns out).2
    ∧ ((execBuild r ns out).2 = none → (execBuild r ns out).1 = (execTo r ns out).1) := by
  induction ns generalizing out with
  | nil => simp [execBuild, execTo]
  | cons n t ih =>
    cases hw : n.WriteTo r with
    | error e => simp [execBuild, execTo, hw]
    | ok s => simpa [execBuild, execTo, hw] using ih (out ++ s)

theorem execBuild_err (r : Replacer) (ns : List Node) (e : TemplateError) :
    ∀ out, (execBuild r ns out).2 = some e → (execBuild r ns out).1 = [] := by
  induction ns with
  | nil => intro out h; simp [execBuild] at h
  | cons n t ih =>
    intro out h
    cases hw : n.WriteTo r with
    | error er => simp [execBuild, hw]
    | ok s =>
      rw [execBuild] at h ⊢
      rw [hw] at h ⊢
      exact ih (out ++ s) h

theorem findq_append (p : Str → Bool) (l1 l2 : List Str) :
    (l1 ++ l2).find? p =
      match l1.find? p with
      | some x => some x
      | none => l2.find? p := by
  induction l1 with
  | nil => simp
  | cons a t ih =>
    cases hpa : p a with
    | true => simp [List.find?, hpa]
    | false => simp [List.find?, hpa, ih]

theorem partsLoop_choices (parts : List Str) :
    ∀ (choices : List Str) (dflt : Str) (hasDef : Bool),
    (partsLoop parts choices dflt hasDef).1 = choices ++ specChoices parts := by
  induction parts with
  | nil => intro choices dflt hasDef; simp [partsLoop, specChoices]
  | cons p ps ih =>
    intro choices dflt hasDef
    simp only [partsLoop]
    by_cases h : defSigil.isPrefixOf (trimSpace p) = true
    · rw [if_pos h, ih]
      simp [specChoices, h]
    · rw [if_neg h, ih]
      simp only [Bool.not_eq_true] at h
      simp [specChoices, h, List.append_assoc]

theorem partsLoop_hasDef (parts : List Str) :
    ∀ (choices : List Str) (dflt : Str) (hasDef : Bool),
    (partsLoop parts choices dflt hasDef).2.2 = (hasDef || specHasDef parts) := by
  induction parts with
  | nil => intro choices dflt hasDef; simp [partsLoop, specHasDef]
  | cons p ps ih =>
    intro choices dflt hasDef
    simp only [partsLoop]
    by_cases h : defSigil.isPrefixOf (trimSpace p) = true
    · rw [if_pos h, ih]
      simp [specHasDef, h]
    · rw [if_neg h, ih]
      simp only [Bool.not_eq_true] at h
      simp [specHasDef, h]

theorem partsLoop_dflt (parts : List Str) :
    ∀ (choices : List Str) (dflt : Str) (hasDef : Bool),
    (partsLoop parts choices dflt hasDef).2.1 =
      (((parts.map trimSpace).reverse.find? (fun q => defSigil.isPrefixOf q)).map
        (fun q => q.drop defSigil.length)).getD dflt := by
  induction parts with
  | nil => intro choices dflt hasDef; simp [partsLoop]
  | cons p ps ih =>
    intro choices dflt hasDef
    simp only [partsLoop]
    by_cases h : defSigil.isPrefixOf (trimSpace p) = true
    · rw [if_pos h, ih]
      simp only [List.map_cons, List.reverse_cons, findq_append]
      cases hf : (ps.map trimSpace).reverse.find? (fun q => defSigil.isPrefixOf q) with
      | some q => simp
      | none => simp [List.find?, h]
    · rw [if_neg h, ih]
      simp only [Bool.not_eq_true] at h
      simp only [List.map_cons, List.reverse_cons, findq_append]
      cases hf : (ps.map trimSpace).reverse.find? (fun q => defSigil.isPrefixOf q) with
      | some q => simp
      | none => simp [List.find?, h]

theorem execTo_skip (r : Replacer) (n : Node) (ns2 : List Node) (e : TemplateError)
    (h2 : n.WriteTo r = .error e) :
    ∀ (ns1 : List Node) (w : Str) (outs : List Str), renderAll r ns1 = some outs →
      execTo r (ns1 ++ n :: ns2) w = (w ++ outs.flatten, some e) := by
  intro ns1
  induction ns1 with
  | nil =>
    intro w outs h1
    simp [renderAll] at h1
    subst h1
    simp [execTo, h2]
  | cons m ms ih =>
    intro w outs h1
    rw [renderAll] at h1
    cases hw : m.WriteTo r with
    | error er => rw [hw] at h1; cases h1
    | ok s =>
      rw [hw] at h1
      cases hrest : renderAll r ms with
      | none => rw [hrest] at h1; cases h1
      | some rest =>
        rw [hrest] at h1
        simp only [Option.map_some', Option.some.injEq] at h1
        subst h1
        simp only [List.cons_append, execTo, hw, List.append_eq]
        rw [ih (w ++ s) rest hrest]
        simp [List.append_assoc]

/-! ### Claims -/

/-- Claim C1: variable-node resolution follows the spec's algorithm exactly:
found with a non-empty allowed set and a non-member value fails with
InvalidValue (value, key, allowed set); not found with a default emits the
default verbatim, skipping the choice check; not found without a default
fails with NoReplacement (key); otherwise the resolved value is emitted. -/
theorem varNode_resolution (v : VarNode) (r : Replacer) (val : Str) (found : Bool)
    (h : r v.Key = (val, found)) :
    (found = true → v.Choices ≠ [] → val ∉ v.Choices →
      v.WriteTo r = .error (.InvalidValue val v.Key v.Choices))
    ∧ (found = false → v.HasDef = true → v.WriteTo r = .ok v.Default)
    ∧ (found = false → v.HasDef = false → v.WriteTo r = .error (.NoReplacement v.Key))
    ∧ (found = true → (v.Choices = [] ∨ val ∈ v.Choices) → v.WriteTo r = .ok val) := by
  refine ⟨?_, ?_, ?_, ?_⟩
  · intro hf hne hmem
    subst hf
    have hval : goContains v.Choices val = false := by
      cases hg : goContains v.Choices val
      · rfl
      · exact absurd ((goContains_eq_mem _ _).mp hg) hmem
    have hlen : 0 < v.Choices.length := List.length_pos.mpr hne
    simp [VarNode.WriteTo, h, VarNode.isValidChoice, hval, hlen]
  · intro hf hd
    subst hf
    simp [VarNode.WriteTo, h, hd]
  · intro hf hd
    subst hf
    simp [VarNode.WriteTo, h, hd]
  · intro hf hor
    subst hf
    cases hor with
    | inl hnil => simp [VarNode.WriteTo, h, hnil]
    | inr hmem =>
      have hval : goContains v.Choices val = true := (goContains_eq_mem _ _).mpr hmem
      simp [VarNode.WriteTo, h, VarNode.isValidChoice, hval]

/-- Witness for C1 at a concrete node and replacer: the key resolves to a
value outside the allowed set and rendering fails with InvalidValue. -/
theorem varNode_resolution_witness :
    VarNode.WriteTo ⟨['k'], [['a']], [], false⟩ (fun _ => (['b'], true)) =
      .error (.InvalidValue ['b'] ['k'] [['a']]) := by
  have h := varNode_resolution ⟨['k'], [['a']], [], false⟩ (fun _ => (['b'], true)) ['b'] true rfl
  exact h.1 rfl (by decide) (by decide)

/-- Claim C2 (amended): whenever the next opening marker from the scan
position has no closing marker after it, the scanner turns the whole
remainder from the scan position — the unmatched opener included — into a
single literal node; parsing that remainder succeeds and rendering
reproduces it verbatim, for every Replacer.  At scan position 0 the whole
input parses to one literal node. -/
theorem unterminated_literal (data : Str) (pos i : Nat)
    (hopen : strIndex (data.drop pos) openMarker = some i)
    (hclose : strIndex (data.drop (i + pos + openMarker.length)) closeMarker = none) :
    parseLoop data pos = .ok [Node.text ⟨data.drop pos⟩]
    ∧ (∀ r : Replacer, Template.Execute ⟨[Node.text ⟨data.drop pos⟩]⟩ r = (data.drop pos, none))
    ∧ (pos = 0 → ParseString data = .ok ⟨[Node.text ⟨data⟩]⟩) := by
  have hfind : findNextTemplate data pos = none := by
    simp only [findNextTemplate, hopen, hclose]
  have hne : data.drop pos ≠ [] := by
    intro hnil
    rw [hnil, strIndex_nil_openMarker] at hopen
    cases hopen
  have hA : parseLoop data pos = .ok [Node.text ⟨data.drop pos⟩] := by
    rw [parseLoop_none data pos hfind, if_pos (List.length_pos.mpr hne)]
  refine ⟨hA, ?_, ?_⟩
  · intro r
    simp [Template.Execute, execBuild, Node.WriteTo, TextNode.WriteTo]
  · intro h0
    subst h0
    simp only [ParseString, hA, Except.map]
    simp [List.drop_zero]

/-- Counterexample for C2 as stated: `"{{x}}{{.y"` contains an opening
marker (at index 5) with no closing marker anywhere after it, yet parsing
does not succeed — the earlier complete marker `{{x}}` has no variable
sigil, so ParseString returns InvalidTokenSyntax. -/
theorem unterminated_counterexample :
    strIndex (cexC2Input.drop 5) openMarker = some 0
    ∧ strIndex (cexC2Input.drop 7) closeMarker = none
    ∧ ParseString cexC2Input = .error (.InvalidTokenSyntax ['x']) := by
  refine ⟨by decide, by decide, ?_⟩
  have hfind : findNextTemplate cexC2Input 0 = some (0, 5) := by decide
  have htok : parseToken (goSlice cexC2Input (0 + openMarker.length) (5 - closeMarker.length)) =
      .error (.InvalidTokenSyntax ['x']) := by decide
  simp only [ParseString, parseLoop_found cexC2Input 0 0 5 hfind, htok, Except.map]

/-- Witness for C2 (amended) at `"Hello {{.name"`: it parses to a single
literal node and renders back to itself. -/
theorem unterminated_literal_witness :
    ParseString helloInput = .ok ⟨[Node.text ⟨helloInput⟩]⟩
    ∧ Template.Execute ⟨[Node.text ⟨helloInput⟩]⟩ noneReplacer = (helloInput, none) := by
  have h := unterminated_literal helloInput 0 6 (by decide) (by decide)
  exact ⟨h.2.2 rfl, h.2.1 noneReplacer⟩

/-- Claim C8 (amended): when no further opening marker exists, the
remainder is emitted as a final literal node only when it is non-empty;
an empty remainder produces no node at all before scanning terminates. -/
theorem tail_literal (data : Str) (pos : Nat)
    (h : findNextTemplate data pos = none) :
    (data.drop pos ≠ [] → parseLoop data pos = .ok [Node.text ⟨data.drop pos⟩])
    ∧ (data.drop pos = [] → parseLoop data pos = .ok []) := by
  constructor
  · intro hne
    rw [parseLoop_none data pos h, if_pos (List.length_pos.mpr hne)]
  · intro hnil
    rw [parseLoop_none data pos h, hnil]
    simp

/-- Counterexample for C8 as stated: `"{{.k}}"` ends exactly at a closed
marker, and its parse result is the variable node alone — there is no
final empty literal span after it. -/
theorem tail_literal_counterexample :
    ParseString cexC8Input = .ok ⟨[Node.var ⟨['k'], [], [], false⟩]⟩
    ∧ Node.text ⟨[]⟩ ∉ [Node.var ⟨['k'], [], [], false⟩] := by
  refine ⟨?_, by decide⟩
  have hfind : findNextTemplate cexC8Input 0 = some (0, 6) := by decide
  have htok : parseToken (goSlice cexC8Input (0 + openMarker.length) (6 - closeMarker.length)) =
      .ok (Node.var ⟨['k'], [], [], false⟩) := by decide
  have hnone : findNextTemplate cexC8Input 6 = none := by decide
  have htail : parseLoop cexC8Input 6 = .ok [] := by
    rw [parseLoop_none cexC8Input 6 hnone]
    decide
  simp only [ParseString, parseLoop_found cexC8Input 0 0 6 hfind, htok, htail, Except.map]
  decide

/-- Witness for C8 (amended) at a marker-free input. -/
theorem tail_literal_witness :
    parseLoop (['a'] : Str) 0 = .ok [Node.text ⟨['a']⟩] :=
  (tail_literal ['a'] 0 (by decide)).1 (by decide)

/-- Claim C3: a marker body whose trimmed form does not start with the
variable sigil makes the token parse fail with InvalidTokenSyntax carrying
that token, makes the scan from any position whose next marker carries that
body fail with the same error, and makes ParseString return only the
error — the Except carries no Template at all. -/
theorem missing_sigil_fails (data : Str) (pos s e : Nat)
    (hfind : findNextTemplate data pos = some (s, e))
    (hsig : varSigil.isPrefixOf
      (trimSpace (goSlice data (s + openMarker.length) (e - closeMarker.length))) = false) :
    parseToken (goSlice data (s + openMarker.length) (e - closeMarker.length)) =
      .error (.InvalidTokenSyntax (goSlice data (s + openMarker.length) (e - closeMarker.length)))
    ∧ parseLoop data pos =
      .error (.InvalidTokenSyntax (goSlice data (s + openMarker.length) (e - closeMarker.length)))
    ∧ (pos = 0 → ParseString data =
      .error (.InvalidTokenSyntax (goSlice data (s + openMarker.length) (e - closeMarker.length)))) := by
  have htok : parseToken (goSlice data (s + openMarker.length) (e - closeMarker.length)) =
      .error (.InvalidTokenSyntax (goSlice data (s + openMarker.length) (e - closeMarker.length))) := by
    simp only [parseToken, hsig]
    simp
  have hloop : parseLoop data pos =
      .error (.InvalidTokenSyntax (goSlice data (s + openMarker.length) (e - closeMarker.length))) := by
    rw [parseLoop_found data pos s e hfind, htok]
  refine ⟨htok, hloop, ?_⟩
  intro h0
  subst h0
  simp only [ParseString, hloop, Except.map]

/-- Witness for C3 at `"{{k}}"`: the body `k` has no sigil and the whole
parse returns only InvalidTokenSyntax. -/
theorem missing_sigil_fails_witness :
    ParseString tokC3Input = .error (.InvalidTokenSyntax ['k']) := by
  have h := missing_sigil_fails tokC3Input 0 0 5 (by decide) (by decide)
  have h2 : goSlice tokC3Input (0 + openMarker.length) (5 - closeMarker.length) = ['k'] := by decide
  have h3 := h.2.2 rfl
  rw [h2] at h3
  exact h3

/-- Claim C4: rendering to an in-memory string (Execute) and rendering
incrementally into a sink (ExecuteTo, started on an empty sink) agree: the
error outcome (including its kind) is identical, and on success the outputs
are byte-identical. -/
theorem execute_executeTo_agree (t : Template) (r : Replacer) :
    ((t.Execute r).2 = (t.ExecuteTo [] r).2)
    ∧ ((t.Execute r).2 = none → (t.Execute r).1 = (t.ExecuteTo [] r).1) :=
  exec_agree r t.Nodes []

/-- Witness for C4 at a concrete one-literal template. -/
theorem execute_executeTo_agree_witness :
    ((Template.Execute ⟨[Node.text ⟨['a']⟩]⟩ noneReplacer).2 =
      (Template.ExecuteTo ⟨[Node.text ⟨['a']⟩]⟩ [] noneReplacer).2)
    ∧ ((Template.Execute ⟨[Node.text ⟨['a']⟩]⟩ noneReplacer).2 = none →
      (Template.Execute ⟨[Node.text ⟨['a']⟩]⟩ noneReplacer).1 =
        (Template.ExecuteTo ⟨[Node.text ⟨['a']⟩]⟩ [] noneReplacer).1) :=
  execute_executeTo_agree ⟨[Node.text ⟨['a']⟩]⟩ noneReplacer

/-- Claim C5: for a marker body containing the choice separator, the key is
the trimmed text before the separator; the text after it is split on the
delimiter, each part trimmed; the parts beginning with the default sigil
set the default (sigil stripped, marked present, last one winning), and
all other parts become the allowed values in order, duplicates preserved. -/
theorem choice_parsing (token : Str) (idx : Nat)
    (hsig : varSigil.isPrefixOf (trimSpace token) = true)
    (hidx : strIndex ((trimSpace token).drop varSigil.length) choiceSepStr = some idx) :
    parseToken token = .ok (Node.var
      ⟨trimSpace (((trimSpace token).drop varSigil.length).take idx),
       specChoices (splitOnChar choiceDelim
         (((trimSpace token).drop varSigil.length).drop (idx + choiceSepStr.length))),
       specDefault (splitOnChar choiceDelim
         (((trimSpace token).drop varSigil.length).drop (idx + choiceSepStr.length))),
       specHasDef (splitOnChar choiceDelim
         (((trimSpace token).drop varSigil.length).drop (idx + choiceSepStr.length)))⟩) := by
  simp only [parseToken, hsig, if_true, hidx]
  rw [partsLoop_choices, partsLoop_dflt, partsLoop_hasDef]
  simp [specDefault]

/-- Witness for C5 at the body `".k:a|@d|b"`. -/
theorem choice_parsing_witness :
    parseToken tokC5 = .ok (Node.var ⟨['k'], [['a'], ['b']], ['d'], true⟩) := by
  have h := choice_parsing tokC5 1 (by decide) (by decide)
  rw [h]
  decide

/-- Claim C6: `"{{.key:@}}"` parses to a variable node whose default is
present and empty; rendering it under a Replacer that does not find the
key emits the empty string, whereas the same node without the default
fails with NoReplacement — so the empty default is distinguishable from
the absence of a default. -/
theorem empty_default_distinct (r : Replacer) (v0 : Str)
    (h : r ['k', 'e', 'y'] = (v0, false)) :
    ParseString c6Input = .ok ⟨[Node.var ⟨['k', 'e', 'y'], [], [], true⟩]⟩
    ∧ Template.Execute ⟨[Node.var ⟨['k', 'e', 'y'], [], [], true⟩]⟩ r = ([], none)
    ∧ VarNode.WriteTo ⟨['k', 'e', 'y'], [], [], false⟩ r =
      .error (.NoReplacement ['k', 'e', 'y']) := by
  refine ⟨?_, ?_, ?_⟩
  · have hfind : findNextTemplate c6Input 0 = some (0, 10) := by decide
    have htok : parseToken (goSlice c6Input (0 + openMarker.length) (10 - closeMarker.length)) =
        .ok (Node.var ⟨['k', 'e', 'y'], [], [], true⟩) := by decide
    have hnone : findNextTemplate c6Input 10 = none := by decide
    have htail : parseLoop c6Input 10 = .ok [] := by
      rw [parseLoop_none c6Input 10 hnone]
      decide
    simp only [ParseString, parseLoop_found c6Input 0 0 10 hfind, htok, htail, Except.map]
    decide
  · simp [Template.Execute, execBuild, Node.WriteTo, VarNode.WriteTo, h]
  · simp [VarNode.WriteTo, h]

/-- Witness for C6 at the replacer that finds nothing. -/
theorem empty_default_distinct_witness :
    ParseString c6Input = .ok ⟨[Node.var ⟨['k', 'e', 'y'], [], [], true⟩]⟩
    ∧ Template.Execute ⟨[Node.var ⟨['k', 'e', 'y'], [], [], true⟩]⟩ noneReplacer = ([], none)
    ∧ VarNode.WriteTo ⟨['k', 'e', 'y'], [], [], false⟩ noneReplacer =
      .error (.NoReplacement ['k', 'e', 'y']) :=
  empty_default_distinct noneReplacer [] rfl

/-- Claim C7: streaming rendering is fail-fast: when every node of the
prefix renders successfully and the next node fails, ExecuteTo returns
exactly that node's error, the sink keeps everything already written
(initial contents and the prefix outputs, in order), and nothing of the
failing node or of any later node is written. -/
theorem executeTo_failFast (r : Replacer) (ns1 ns2 : List Node) (n : Node)
    (w : Str) (e : TemplateError) (outs : List Str)
    (h1 : renderAll r ns1 = some outs)
    (h2 : n.WriteTo r = .error e) :
    Template.ExecuteTo ⟨ns1 ++ n :: ns2⟩ w r = (w ++ outs.flatten, some e) :=
  execTo_skip r n ns2 e h2 ns1 w outs h1

/-- Witness for C7: a literal renders into the sink, the missing-key
variable fails, and the later literal never appears. -/
theorem executeTo_failFast_witness :
    Template.ExecuteTo
        ⟨[Node.text ⟨['a']⟩] ++ Node.var ⟨['k'], [], [], false⟩ :: [Node.text ⟨['z']⟩]⟩
        ['w'] noneReplacer =
      (['w'] ++ [['a']].flatten, some (.NoReplacement ['k'])) :=
  executeTo_failFast noneReplacer [Node.text ⟨['a']⟩] [Node.text ⟨['z']⟩]
    (Node.var ⟨['k'], [], [], false⟩) ['w'] (.NoReplacement ['k']) [['a']]
    (by decide) (by decide)

/-- Claim C10: whenever Execute returns an error, its string result is the
empty string — the string-returning API never exposes partial output. -/
theorem execute_error_empty (t : Template) (r : Replacer) (e : TemplateError)
    (h : (t.Execute r).2 = some e) : (t.Execute r).1 = [] :=
  execBuild_err r t.Nodes e [] h

/-- Witness for C10: a template whose second node fails returns the empty
string even though a literal was already rendered. -/
theorem execute_error_empty_witness :
    (Template.Execute ⟨[Node.text ⟨['a']⟩, Node.var ⟨['k'], [], [], false⟩]⟩ noneReplacer).1 = [] :=
  execute_error_empty ⟨[Node.text ⟨['a']⟩, Node.var ⟨['k'], [], [], false⟩]⟩ noneReplacer
    (.NoReplacement ['k']) (by decide)
